import Mathlib

/-!
Verification of `flask_admin/model/form.py` (model-form helpers of flask-admin).

The Python module is shallowly embedded: Python dicts become association
lists (`Dict`), classes and instances become structures over those dicts,
mutation of shared `UnboundField` objects becomes explicit state passing
through a `Store`, and raising becomes `Except`.
-/

namespace FlaskAdminModelForm

/-- A Python dict with string keys, in insertion order.  `insert` updates an
existing key in place and appends a fresh key, mirroring CPython semantics. -/
abbrev Dict (α : Type) := List (String × α)

def Dict.lookup {α : Type} : Dict α → String → Option α
  | [], _ => none
  | (k, v) :: rest, key => if k = key then some v else Dict.lookup rest key

def Dict.insert {α : Type} : Dict α → String → α → Dict α
  | [], key, v => [(key, v)]
  | (k, w) :: rest, key, v =>
    if k = key then (key, v) :: rest else (k, w) :: Dict.insert rest key v

structure PyType where
  module : String
  name : String
deriving DecidableEq

/-- `'%s.%s' % (col_type.__module__, col_type.__name__)` -/
def PyType.qualified (t : PyType) : String := t.module ++ "." ++ t.name

/-- The part of a column the converter lookup reads: the MRO of
`type(column.type)`, exact type first. -/
structure Column where
  typeMro : List PyType

structure ModelConverterState where
  use_mro : Bool
  converters : Dict String

/-- `ModelConverterBase.get_converter`: candidates are the full MRO when
`use_mro` is set, else just the exact type; pass 1 looks every candidate up
by `module.name`, pass 2 by bare name; first hit wins, else `None`. -/
def get_converter (self : ModelConverterState) (column : Column) : Option String :=
  let types := if self.use_mro then column.typeMro else column.typeMro.take 1
  match types.findSome? (fun t => self.converters.lookup t.qualified) with
  | some c => some c
  | none => types.findSome? (fun t => self.converters.lookup t.name)

inductive Widget where
  | xeditable
  | custom (tag : String)
deriving DecidableEq

inductive KwVal where
  | widgetV (w : Widget)
  | validatorsV (vs : List String)
deriving DecidableEq

structure UnboundField where
  fieldClass : String
  kwargs : Dict KwVal
deriving DecidableEq

abbrev Store := List UnboundField

/-- `obj.kwargs['widget'] = widget` on the field object at index `id`. -/
def setWidget (store : Store) (id : Nat) (w : Widget) : Store :=
  match store[id]? with
  | some f => store.set id { f with kwargs := f.kwargs.insert "widget" (.widgetV w) }
  | none => store

/-- What `get_converter` on the kwargs dict sees as the rendering widget. -/
def widgetOf (store : Store) (id : Nat) : Option Widget :=
  match store[id]? with
  | some f =>
    match f.kwargs.lookup "widget" with
    | some (.widgetV w) => some w
    | _ => none
  | none => none

/-- An entry of a class `__dict__`: an `UnboundField` (by store index) or any
other attribute. -/
inductive ClassAttr where
  | unbound (id : Nat)
  | plainAttr (tag : String)
deriving DecidableEq

structure FormClass where
  dict : Dict ClassAttr
deriving DecidableEq

/-- The derived `ListForm` class: its base plus its own `__dict__`. -/
structure ListFormClass where
  base : FormClass
  dict : Dict ClassAttr
deriving DecidableEq

/-- `HiddenField(validators=[InputRequired()])` as an unbound field. -/
def list_form_pk_field : UnboundField :=
  { fieldClass := "HiddenField",
    kwargs := [("validators", .validatorsV ["InputRequired"])] }

/-- The `for name, obj in iteritems(form_class.__dict__)` loop: each unbound
field gets its widget kwarg set in place, is attached to `ListForm` under
the same name, and the reserved name raises. -/
def listFormLoop (w : Widget) :
    List (String × ClassAttr) → ListFormClass → Store →
      Except String (ListFormClass × Store)
  | [], lf, store => .ok (lf, store)
  | (name, attr) :: rest, lf, store =>
    match attr with
    | .unbound id =>
      let store1 := setWidget store id w
      let lf1 : ListFormClass := { lf with dict := lf.dict.insert name (.unbound id) }
      if name = "list_form_pk" then
        .error "Form already has a list_form_pk column."
      else
        listFormLoop w rest lf1 store1
    | .plainAttr _ => listFormLoop w rest lf store

/-- `create_editable_list_form(form_base_class, form_class, widget=None)`:
defaults the widget to `XEditableWidget()`, builds `ListForm` extending the
base with the reserved `list_form_pk` hidden field, then copies every
unbound field over. -/
def create_editable_list_form (store : Store) (form_base_class : FormClass)
    (form_class : FormClass) (widget : Option Widget) :
    Except String (ListFormClass × Store) :=
  let w := widget.getD .xeditable
  let pkId := store.length
  let store1 := store ++ [list_form_pk_field]
  let lf : ListFormClass :=
    { base := form_base_class, dict := [("list_form_pk", .unbound pkId)] }
  listFormLoop w form_class.dict lf store1

structure MemberInfo where
  name : String
  converter_for : Option (List String)
deriving DecidableEq

/-- One member's contribution to the registry: a tagged member is inserted
under each of its tags, an untagged one is skipped. -/
def registerMember (conv : Dict String) (m : MemberInfo) : Dict String :=
  match m.converter_for with
  | none => conv
  | some tags => tags.foldl (fun c t => c.insert t m.name) conv

/-- `ModelConverterBase.__init__`: seed the mapping from the caller-supplied
dict (defaulting to empty), then scan all members. -/
def modelConverterBaseInit (seed : Dict String) (members : List MemberInfo) :
    Dict String :=
  members.foldl registerMember seed

def claimsTag (m : MemberInfo) (t : String) : Bool :=
  match m.converter_for with
  | none => false
  | some tags => tags.contains t

/-- The member the scan leaves in the mapping for tag `t`: the last one in
scan order that claims `t`. -/
def lastClaimant : List MemberInfo → String → Option String
  | [], _ => none
  | m :: rest, t =>
    match lastClaimant rest t with
    | some x => some x
    | none => if claimsTag m t then some m.name else none

inductive PyErr where
  | typeError
  | otherErr (msg : String)
deriving DecidableEq

abbrev CallResult := Except PyErr Unit

/-- An `on_model_change` override: the legacy shape accepts `(form, model)`
only, the current shape accepts `(form, model, is_created)`. -/
inductive OnModelChange where
  | twoArg (f : Nat → Nat → CallResult)
  | threeArg (f : Nat → Nat → Bool → CallResult)

/-- Calling the override with three logical arguments; a two-parameter
override raises `TypeError` for the extra argument. -/
def callThree : OnModelChange → Nat → Nat → Bool → CallResult
  | .twoArg _, _, _, _ => .error .typeError
  | .threeArg f, form, model, is_created => f form model is_created

/-- Calling the override with two logical arguments; a three-parameter
override raises `TypeError` for the missing argument. -/
def callTwo : OnModelChange → Nat → Nat → CallResult
  | .twoArg f, form, model => f form model
  | .threeArg _, _, _ => .error .typeError

/-- The warning text built from `self.model`. -/
def deprecationMsg (modelName : String) : String :=
  modelName ++
    ".on_model_change() now accepts third parameter is_created. Please update your code"

/-- `InlineBaseFormAdmin._on_model_change`: try the three-argument call; on
`TypeError`, `warnings.warn` the message and retry with two arguments,
whose outcome — success or failure — is final; other errors propagate
without warning or retry. -/
def _on_model_change (ov : OnModelChange) (modelName : String)
    (form model : Nat) (is_created : Bool) : List String × CallResult :=
  match callThree ov form model is_created with
  | .ok u => ([], .ok u)
  | .error .typeError => ([deprecationMsg modelName], callTwo ov form model)
  | .error (.otherErr m) => ([], .error (.otherErr m))

/-- Python truthiness of `getattr(info, 'form_label', None)`: `None` and the
empty string are falsy. -/
def truthyStr : Option String → Bool
  | none => false
  | some s => !(s == "")

/-- The attributes of an inline descriptor that `get_label` reads. -/
structure InlineInfoAttrs where
  form_label : Option String
deriving DecidableEq

/-- The attributes of the owning view that `get_label` reads:
`getattr(self.view, 'column_labels', None)`. -/
structure ViewAttrs where
  column_labels : Option (Dict String)
deriving DecidableEq

/-- `InlineModelConverterBase.get_label`: `form_label` if truthy, else
`column_labels[name]` when `column_labels` is truthy and contains `name`,
else `None`. -/
def get_label (view : ViewAttrs) (info : InlineInfoAttrs) (name : String) :
    Option String :=
  let form_name := info.form_label
  if truthyStr form_name then form_name
  else
    match view.column_labels with
    | some labels =>
      if labels ≠ [] ∧ (labels.lookup name).isSome then labels.lookup name
      else none
    | none => none

inductive PyVal where
  | noneV
  | strV (s : String)
  | listV (xs : List String)
  | ruleSetV (rules_list : List String)
deriving DecidableEq

/-- Python truthiness: `None`, `''` and `[]` are falsy. -/
def PyVal.truthy : PyVal → Bool
  | .noneV => false
  | .strV s => !(s == "")
  | .listV xs => !xs.isEmpty
  | .ruleSetV _ => true

def _defaults : List String :=
  ["form_base_class", "form_columns", "form_excluded_columns", "form_args",
    "form_extra_fields"]

/-- `rules.RuleSet(self, form_rules)`: the rule set compiled from the
supplied rules. -/
def ruleSetOf : PyVal → PyVal
  | .listV xs => .ruleSetV xs
  | _ => .ruleSetV []

/-- The first loop: every name in `_defaults` not already an attribute is
set to `None`. -/
def applyDefaults (a : Dict PyVal) : Dict PyVal :=
  _defaults.foldl (fun a k => if (a.lookup k).isSome then a else a.insert k .noneV) a

/-- The second loop: every keyword override is applied by `setattr`. -/
def applyKwargs (a : Dict PyVal) (kwargs : List (String × PyVal)) : Dict PyVal :=
  kwargs.foldl (fun a kv => a.insert kv.1 kv.2) a

/-- `InlineBaseFormAdmin.__init__`: defaults, then keyword overrides, then
`self._form_rules = rules.RuleSet(self, form_rules) if form_rules else None`
with `form_rules = getattr(self, 'form_rules', None)`. -/
def inlineBaseFormAdminInit (classAttrs : Dict PyVal)
    (kwargs : List (String × PyVal)) : Dict PyVal :=
  let a := applyKwargs (applyDefaults classAttrs) kwargs
  let form_rules := (a.lookup "form_rules").getD .noneV
  a.insert "_form_rules" (if form_rules.truthy then ruleSetOf form_rules else .noneV)

/-- `InlineFormAdmin.__init__(model, **kwargs)`: stores `self.model`, then
runs the base constructor. -/
def inlineFormAdminNew (model : String) (kwargs : List (String × PyVal)) :
    Dict PyVal :=
  inlineBaseFormAdminInit [("model", .strV model)] kwargs

/-- The shapes an inline-model declaration can take: a `(model, options)`
pair, an already-constructed `InlineFormAdmin` descriptor, or a plain model
class. -/
inductive InlineDecl where
  | tupleDecl (model : String) (options : List (String × PyVal))
  | adminDecl (d : Dict PyVal)
  | modelDecl (model : String)
deriving DecidableEq

/-- `InlineModelConverterBase.get_info`: a tuple builds
`self.form_admin_class(p[0], **p[1])`, an instance of the expected class is
passed through unchanged, anything else gives `None`. -/
def get_info : InlineDecl → Option (Dict PyVal)
  | .tupleDecl m opts => some (inlineFormAdminNew m opts)
  | .adminDecl d => some d
  | .modelDecl _ => none


theorem Dict.lookup_insert_self {α : Type} (d : Dict α) (key : String) (v : α) :
    (d.insert key v).lookup key = some v := by
  induction d with
  | nil => simp [Dict.insert, Dict.lookup]
  | cons p rest ih =>
    obtain ⟨pk, pv⟩ := p
    by_cases hp : pk = key
    · simp [Dict.insert, hp, Dict.lookup]
    · simp [Dict.insert, hp, Dict.lookup, ih]

theorem Dict.lookup_insert_ne {α : Type} (d : Dict α) (key k : String) (v : α)
    (h : k ≠ key) : (d.insert key v).lookup k = d.lookup k := by
  have hkk : ¬key = k := fun hh => h hh.symm
  induction d with
  | nil => simp [Dict.insert, Dict.lookup, hkk]
  | cons p rest ih =>
    obtain ⟨pk, pv⟩ := p
    by_cases hp : pk = key
    · subst hp
      simp [Dict.insert, Dict.lookup, hkk]
    · by_cases hpk : pk = k
      · simp [Dict.insert, Dict.lookup, hp, hpk, h]
      · simp [Dict.insert, Dict.lookup, hp, hpk, ih]

theorem Dict.lookup_insert_isSome {α : Type} (d : Dict α) (key k : String) (v : α)
    (h : (d.lookup k).isSome) : ((d.insert key v).lookup k).isSome := by
  by_cases hk : k = key
  · subst hk; simp [Dict.lookup_insert_self]
  · rwa [Dict.lookup_insert_ne d key k v hk]

theorem findSome_eq_none_of_forall {α β : Type} (l : List α) (f : α → Option β)
    (h : ∀ x ∈ l, f x = none) : l.findSome? f = none := by
  induction l with
  | nil => rfl
  | cons x rest ih =>
    have hx : f x = none := h x (List.mem_cons_self x rest)
    simp only [List.findSome?_cons, hx]
    exact ih (fun y hy => h y (List.mem_cons_of_mem x hy))

/-- C1: for a column whose runtime type has MRO `[T, A, B]`, with no
qualified-name converter registered for any of the three and a bare-name
converter registered only for `B`, `get_converter` finds `B`'s converter in
the bare-name pass when `use_mro` is enabled, and finds nothing when
`use_mro` is disabled (only the exact type `T` is a candidate). -/
theorem get_converter_mro_two_pass (conv : Dict String) (tT tA tB : PyType)
    (c : String) (col : Column)
    (hmro : col.typeMro = [tT, tA, tB])
    (hq1 : conv.lookup tT.qualified = none)
    (hq2 : conv.lookup tA.qualified = none)
    (hq3 : conv.lookup tB.qualified = none)
    (hb1 : conv.lookup tT.name = none)
    (hb2 : conv.lookup tA.name = none)
    (hb3 : conv.lookup tB.name = some c) :
    get_converter ⟨true, conv⟩ col = some c ∧
      get_converter ⟨false, conv⟩ col = none := by
  constructor
  · simp [get_converter, hmro, List.findSome?_cons, hq1, hq2, hq3, hb1, hb2, hb3]
  · simp [get_converter, hmro, List.findSome?_cons, hq1, hb1]

theorem get_converter_mro_two_pass_witness :
    get_converter ⟨true, [("B", "b_conv")]⟩ ⟨[⟨"m", "T"⟩, ⟨"m", "A"⟩, ⟨"m", "B"⟩]⟩
        = some "b_conv" ∧
      get_converter ⟨false, [("B", "b_conv")]⟩ ⟨[⟨"m", "T"⟩, ⟨"m", "A"⟩, ⟨"m", "B"⟩]⟩
        = none :=
  get_converter_mro_two_pass [("B", "b_conv")] ⟨"m", "T"⟩ ⟨"m", "A"⟩ ⟨"m", "B"⟩
    "b_conv" ⟨[⟨"m", "T"⟩, ⟨"m", "A"⟩, ⟨"m", "B"⟩]⟩ rfl
    (by decide) (by decide) (by decide) (by decide) (by decide) (by decide)

/-- C8: when no candidate type (the whole MRO with `use_mro`, only the exact
type without) has a registered converter under either its qualified or its
bare name, `get_converter` returns `none`; being a total function into
`Option`, it raises nothing. -/
theorem get_converter_missing_returns_none (self : ModelConverterState)
    (col : Column)
    (h : ∀ t ∈ (if self.use_mro then col.typeMro else col.typeMro.take 1),
      self.converters.lookup t.qualified = none ∧
        self.converters.lookup t.name = none) :
    get_converter self col = none := by
  unfold get_converter
  simp only []
  rw [findSome_eq_none_of_forall _ _ (fun t ht => (h t ht).1),
    findSome_eq_none_of_forall _ _ (fun t ht => (h t ht).2)]

theorem get_converter_missing_returns_none_witness :
    get_converter ⟨true, [("Other", "oc")]⟩ ⟨[⟨"m", "T"⟩, ⟨"m", "A"⟩]⟩ = none :=
  get_converter_missing_returns_none ⟨true, [("Other", "oc")]⟩
    ⟨[⟨"m", "T"⟩, ⟨"m", "A"⟩]⟩ (by decide)

theorem setWidget_length (s : Store) (id : Nat) (w : Widget) :
    (setWidget s id w).length = s.length := by
  unfold setWidget
  cases h : s[id]? <;> simp

theorem getElem_setWidget_ne (s : Store) (id j : Nat) (w : Widget) (h : j ≠ id) :
    (setWidget s id w)[j]? = s[j]? := by
  unfold setWidget
  cases hg : s[id]?
  · rfl
  · exact List.getElem?_set_ne (fun hh => h hh.symm)

theorem widgetOf_setWidget_ne (s : Store) (id j : Nat) (w : Widget) (h : j ≠ id) :
    widgetOf (setWidget s id w) j = widgetOf s j := by
  unfold widgetOf
  rw [getElem_setWidget_ne s id j w h]

theorem widgetOf_setWidget_self (s : Store) (id : Nat) (w : Widget)
    (h : id < s.length) : widgetOf (setWidget s id w) id = some w := by
  have hg : s[id]? = some s[id] := List.getElem?_eq_getElem h
  unfold setWidget widgetOf
  rw [hg]
  simp only [List.getElem?_set_self h, Dict.lookup_insert_self]

theorem widgetOf_setWidget_same (s : Store) (j id : Nat) (w : Widget)
    (h : widgetOf s id = some w) : widgetOf (setWidget s j w) id = some w := by
  by_cases hji : id = j
  · subst hji
    have hlt : id < s.length := by
      unfold widgetOf at h
      cases hg : s[id]? with
      | none => rw [hg] at h; simp at h
      | some f => exact (List.getElem?_eq_some.mp hg).1
    exact widgetOf_setWidget_self s id w hlt
  · rw [widgetOf_setWidget_ne s j id w hji]
    exact h

theorem listFormLoop_preserves_widgetOf (w : Widget) :
    ∀ (entries : List (String × ClassAttr)) (lf : ListFormClass) (store : Store)
      (lf2 : ListFormClass) (store2 : Store) (id : Nat),
      listFormLoop w entries lf store = .ok (lf2, store2) →
      widgetOf store id = some w → widgetOf store2 id = some w := by
  intro entries
  induction entries with
  | nil =>
    intro lf store lf2 store2 id hok hw
    simp only [listFormLoop, Except.ok.injEq, Prod.mk.injEq] at hok
    rw [← hok.2]
    exact hw
  | cons q rest ih =>
    intro lf store lf2 store2 id hok hw
    obtain ⟨qn, qa⟩ := q
    cases qa with
    | unbound fid =>
      simp only [listFormLoop] at hok
      by_cases hname : qn = "list_form_pk"
      · rw [if_pos hname] at hok; cases hok
      · rw [if_neg hname] at hok
        exact ih _ _ _ _ _ hok (widgetOf_setWidget_same store fid id w hw)
    | plainAttr t =>
      simp only [listFormLoop] at hok
      exact ih _ _ _ _ _ hok hw

theorem listFormLoop_preserves_lookup (w : Widget) :
    ∀ (entries : List (String × ClassAttr)) (lf : ListFormClass) (store : Store)
      (lf2 : ListFormClass) (store2 : Store) (n : String) (v : ClassAttr),
      listFormLoop w entries lf store = .ok (lf2, store2) →
      lf.dict.lookup n = some v →
      (∀ p ∈ entries, p.1 ≠ n) →
      lf2.dict.lookup n = some v := by
  intro entries
  induction entries with
  | nil =>
    intro lf store lf2 store2 n v hok hl _
    simp only [listFormLoop, Except.ok.injEq, Prod.mk.injEq] at hok
    rw [← hok.1]
    exact hl
  | cons q rest ih =>
    intro lf store lf2 store2 n v hok hl hnames
    obtain ⟨qn, qa⟩ := q
    have hqn : qn ≠ n := hnames (qn, qa) (List.mem_cons_self _ _)
    cases qa with
    | unbound fid =>
      simp only [listFormLoop] at hok
      by_cases hname : qn = "list_form_pk"
      · rw [if_pos hname] at hok; cases hok
      · rw [if_neg hname] at hok
        refine ih _ _ _ _ _ _ hok ?_ ?_
        · rw [Dict.lookup_insert_ne _ qn n _ (fun hh => hqn hh.symm)]
          exact hl
        · exact fun p hp => hnames p (List.mem_cons_of_mem _ hp)
    | plainAttr t =>
      simp only [listFormLoop] at hok
      exact ih _ _ _ _ _ _ hok hl (fun p hp => hnames p (List.mem_cons_of_mem _ hp))

theorem listFormLoop_props (w : Widget) :
    ∀ (entries : List (String × ClassAttr)) (lf : ListFormClass) (store : Store)
      (lf2 : ListFormClass) (store2 : Store),
      listFormLoop w entries lf store = .ok (lf2, store2) →
      (entries.map Prod.fst).Nodup →
      (∀ p ∈ entries, ∀ id, p.2 = ClassAttr.unbound id → id < store.length) →
      ∀ p ∈ entries, ∀ id, p.2 = ClassAttr.unbound id →
        widgetOf store2 id = some w ∧ lf2.dict.lookup p.1 = some (.unbound id) := by
  intro entries
  induction entries with
  | nil => intro _ _ _ _ _ _ _ p hp; cases hp
  | cons q rest ih =>
    intro lf store lf2 store2 hok hnodup hvalid p hp id hid
    obtain ⟨qn, qa⟩ := q
    rw [List.map_cons, List.nodup_cons] at hnodup
    obtain ⟨hqmem, hrestnodup⟩ := hnodup
    cases List.mem_cons.mp hp with
    | inl heq =>
      subst heq
      simp only at hid
      subst hid
      simp only [listFormLoop] at hok
      by_cases hname : qn = "list_form_pk"
      · rw [if_pos hname] at hok; cases hok
      · rw [if_neg hname] at hok
        have hlt : id < store.length :=
          hvalid (qn, .unbound id) (List.mem_cons_self _ _) id rfl
        constructor
        · exact listFormLoop_preserves_widgetOf w rest _ _ _ _ _ hok
            (widgetOf_setWidget_self store id w hlt)
        · refine listFormLoop_preserves_lookup w rest _ _ _ _ _ _ hok
            (Dict.lookup_insert_self _ _ _) ?_
          intro r hr hreq
          exact hqmem (hreq ▸ List.mem_map_of_mem Prod.fst hr)
    | inr hrest =>
      cases qa with
      | unbound fid =>
        simp only [listFormLoop] at hok
        by_cases hname : qn = "list_form_pk"
        · rw [if_pos hname] at hok; cases hok
        · rw [if_neg hname] at hok
          refine ih _ _ _ _ hok hrestnodup ?_ p hrest id hid
          intro r hr i hi
          rw [setWidget_length]
          exact hvalid r (List.mem_cons_of_mem _ hr) i hi
      | plainAttr t =>
        simp only [listFormLoop] at hok
        exact ih _ _ _ _ hok hrestnodup
          (fun r hr i hi => hvalid r (List.mem_cons_of_mem _ hr) i hi) p hrest id hid

theorem listFormLoop_error_of_pk (w : Widget) :
    ∀ (entries : List (String × ClassAttr)) (lf : ListFormClass) (store : Store)
      (id : Nat), ("list_form_pk", ClassAttr.unbound id) ∈ entries →
      listFormLoop w entries lf store =
        .error "Form already has a list_form_pk column." := by
  intro entries
  induction entries with
  | nil => intro _ _ _ h; cases h
  | cons q rest ih =>
    intro lf store id hmem
    obtain ⟨qn, qa⟩ := q
    cases List.mem_cons.mp hmem with
    | inl heq =>
      obtain ⟨h1, h2⟩ := Prod.mk.injEq .. ▸ heq
      subst h1
      rw [← h2]
      simp [listFormLoop]
    | inr hrest =>
      cases qa with
      | unbound fid =>
        by_cases hname : qn = "list_form_pk"
        · simp [listFormLoop, hname]
        · simp only [listFormLoop]
          rw [if_neg hname]
          exact ih _ _ id hrest
      | plainAttr t =>
        simp only [listFormLoop]
        exact ih _ _ id hrest

/-- C2: if the source form class declares an unbound field literally named
`list_form_pk`, `create_editable_list_form` raises
`Exception('Form already has a list_form_pk column.')` and returns no
derived class. -/
theorem create_editable_list_form_reserved_name_raises (store : Store)
    (base fc : FormClass) (widget : Option Widget) (id : Nat)
    (h : ("list_form_pk", ClassAttr.unbound id) ∈ fc.dict) :
    create_editable_list_form store base fc widget =
      .error "Form already has a list_form_pk column." := by
  unfold create_editable_list_form
  exact listFormLoop_error_of_pk _ fc.dict _ _ id h

theorem create_editable_list_form_reserved_name_raises_witness :
    create_editable_list_form [] ⟨[]⟩ ⟨[("list_form_pk", ClassAttr.unbound 0)]⟩
        none = .error "Form already has a list_form_pk column." :=
  create_editable_list_form_reserved_name_raises [] ⟨[]⟩
    ⟨[("list_form_pk", ClassAttr.unbound 0)]⟩ none 0 (by decide)

/-- C3: for a source form class with declared unbound fields `a`, `b`, `c`
(none named `list_form_pk`), `create_editable_list_form` raises no error and
returns a class extending the base whose own fields are exactly
`list_form_pk` (the hidden, `InputRequired`-validated field) plus `a`, `b`,
`c` under their original names, each with its widget kwarg set to the
supplied widget (defaulting to `XEditableWidget`). -/
theorem create_editable_list_form_ok (store : Store) (base : FormClass)
    (a b c : String) (ia ib ic : Nat) (widget : Option Widget)
    (ha : a ≠ "list_form_pk") (hb : b ≠ "list_form_pk") (hc : c ≠ "list_form_pk")
    (hab : a ≠ b) (hac : a ≠ c) (hbc : b ≠ c)
    (hia : ia < store.length) (hib : ib < store.length) (hic : ic < store.length) :
    ∃ store2 : Store,
      create_editable_list_form store base
          ⟨[(a, .unbound ia), (b, .unbound ib), (c, .unbound ic)]⟩ widget =
        .ok ({ base := base,
               dict := [("list_form_pk", ClassAttr.unbound store.length),
                        (a, ClassAttr.unbound ia), (b, ClassAttr.unbound ib),
                        (c, ClassAttr.unbound ic)] }, store2) ∧
      store2[store.length]? = some list_form_pk_field ∧
      widgetOf store2 ia = some (widget.getD Widget.xeditable) ∧
      widgetOf store2 ib = some (widget.getD Widget.xeditable) ∧
      widgetOf store2 ic = some (widget.getD Widget.xeditable) := by
  have hs0 : ia < (store ++ [list_form_pk_field]).length := by
    simp only [List.length_append, List.length_cons, List.length_nil]
    omega
  have hs1 : ib < (store ++ [list_form_pk_field]).length := by
    simp only [List.length_append, List.length_cons, List.length_nil]
    omega
  have hs2 : ic < (store ++ [list_form_pk_field]).length := by
    simp only [List.length_append, List.length_cons, List.length_nil]
    omega
  refine ⟨setWidget (setWidget (setWidget (store ++ [list_form_pk_field]) ia
      (widget.getD Widget.xeditable)) ib (widget.getD Widget.xeditable)) ic
      (widget.getD Widget.xeditable), ?_, ?_, ?_, ?_, ?_⟩
  · simp [create_editable_list_form, listFormLoop, ha, hb, hc, Dict.insert,
      Ne.symm ha, Ne.symm hb, Ne.symm hc, hab, hac, hbc]
  · rw [getElem_setWidget_ne _ _ _ _ (Ne.symm (Nat.ne_of_lt hic)),
      getElem_setWidget_ne _ _ _ _ (Ne.symm (Nat.ne_of_lt hib)),
      getElem_setWidget_ne _ _ _ _ (Ne.symm (Nat.ne_of_lt hia)),
      List.getElem?_concat_length]
  · exact widgetOf_setWidget_same _ _ _ _ (widgetOf_setWidget_same _ _ _ _
      (widgetOf_setWidget_self _ _ _ hs0))
  · refine widgetOf_setWidget_same _ _ _ _ (widgetOf_setWidget_self _ _ _ ?_)
    rw [setWidget_length]
    exact hs1
  · refine widgetOf_setWidget_self _ _ _ ?_
    rw [setWidget_length, setWidget_length]
    exact hs2

theorem create_editable_list_form_ok_witness :
    ∃ store2 : Store,
      create_editable_list_form [⟨"StringField", []⟩, ⟨"StringField", []⟩,
          ⟨"BooleanField", []⟩] ⟨[]⟩
          ⟨[("x", .unbound 0), ("y", .unbound 1), ("z", .unbound 2)]⟩ none =
        .ok ({ base := ⟨[]⟩,
               dict := [("list_form_pk", ClassAttr.unbound 3),
                        ("x", ClassAttr.unbound 0), ("y", ClassAttr.unbound 1),
                        ("z", ClassAttr.unbound 2)] }, store2) ∧
      store2[3]? = some list_form_pk_field ∧
      widgetOf store2 0 = some Widget.xeditable ∧
      widgetOf store2 1 = some Widget.xeditable ∧
      widgetOf store2 2 = some Widget.xeditable :=
  create_editable_list_form_ok [⟨"StringField", []⟩, ⟨"StringField", []⟩,
    ⟨"BooleanField", []⟩] ⟨[]⟩ "x" "y" "z" 0 1 2 none
    (by decide) (by decide) (by decide) (by decide) (by decide) (by decide)
    (by decide) (by decide) (by decide)

/-- C10: `create_editable_list_form` mutates the source form class's field
objects in place: on success, every declared unbound field of the source
class has its widget kwarg set to the supplied widget (default
`XEditableWidget`) in the shared store, and the derived class binds the very
same field object (the same store index) under the same name. -/
theorem create_editable_list_form_mutates_source (store : Store)
    (base fc : FormClass) (widget : Option Widget) (lf2 : ListFormClass)
    (store2 : Store)
    (hok : create_editable_list_form store base fc widget = .ok (lf2, store2))
    (hnodup : (fc.dict.map Prod.fst).Nodup)
    (hvalid : ∀ p ∈ fc.dict, ∀ id, p.2 = ClassAttr.unbound id →
      id < store.length) :
    ∀ p ∈ fc.dict, ∀ id, p.2 = ClassAttr.unbound id →
      widgetOf store2 id = some (widget.getD Widget.xeditable) ∧
        lf2.dict.lookup p.1 = some (ClassAttr.unbound id) := by
  intro p hp id hid
  unfold create_editable_list_form at hok
  refine listFormLoop_props _ fc.dict _ _ _ _ hok hnodup ?_ p hp id hid
  intro q hq i hi
  have := hvalid q hq i hi
  simp only [List.length_append, List.length_cons, List.length_nil]
  omega

theorem create_editable_list_form_mutates_source_witness :
    widgetOf [⟨"StringField", [("widget", KwVal.widgetV Widget.xeditable)]⟩,
        list_form_pk_field] 0 = some Widget.xeditable ∧
      Dict.lookup [("list_form_pk", ClassAttr.unbound 1),
        ("name", ClassAttr.unbound 0)] "name" = some (ClassAttr.unbound 0) :=
  create_editable_list_form_mutates_source [⟨"StringField", []⟩] ⟨[]⟩
    ⟨[("name", ClassAttr.unbound 0)]⟩ none
    ⟨⟨[]⟩, [("list_form_pk", ClassAttr.unbound 1), ("name", ClassAttr.unbound 0)]⟩
    [⟨"StringField", [("widget", KwVal.widgetV Widget.xeditable)]⟩,
      list_form_pk_field] rfl (by decide)
    (by
      intro p hp i hi
      rw [List.mem_singleton] at hp
      subst hp
      simp only at hi
      injection hi with h
      simp only [List.length_cons, List.length_nil]
      omega)
    ("name", ClassAttr.unbound 0) (by decide) 0 rfl

theorem lookup_foldl_insert (nm : String) :
    ∀ (tags : List String) (conv : Dict String) (t : String),
      (tags.foldl (fun c tg => c.insert tg nm) conv).lookup t =
        if tags.contains t then some nm else conv.lookup t := by
  intro tags
  induction tags with
  | nil => intro conv t; simp [Dict.lookup]
  | cons tg rest ih =>
    intro conv t
    rw [List.foldl_cons, ih]
    by_cases hmem : rest.contains t
    · have hmem2 : t ∈ rest := by simpa using hmem
      simp [List.contains_cons, hmem, hmem2]
    · rw [if_neg hmem]
      by_cases htg : tg = t
      · subst htg
        simp [List.contains_cons, hmem, Dict.lookup_insert_self]
      · rw [Dict.lookup_insert_ne _ tg t nm (fun hh => htg hh.symm)]
        have h2 : ¬((tg :: rest).contains t = true) := by
          simp only [List.contains_cons, Bool.or_eq_true, beq_iff_eq]
          rintro (hh | hh)
          · exact htg hh.symm
          · exact hmem (by simpa using hh)
        rw [if_neg h2]

theorem lookup_registerMember (conv : Dict String) (m : MemberInfo) (t : String) :
    (registerMember conv m).lookup t =
      if claimsTag m t then some m.name else conv.lookup t := by
  cases hm : m.converter_for with
  | none => simp [registerMember, claimsTag, hm]
  | some tags => simp [registerMember, claimsTag, hm, lookup_foldl_insert]

theorem lookup_modelConverterBaseInit (members : List MemberInfo) :
    ∀ (seed : Dict String) (t : String),
      (modelConverterBaseInit seed members).lookup t =
        match lastClaimant members t with
        | some nm => some nm
        | none => seed.lookup t := by
  induction members with
  | nil => intro seed t; simp [modelConverterBaseInit, lastClaimant]
  | cons m rest ih =>
    intro seed t
    rw [modelConverterBaseInit, List.foldl_cons]
    have h1 : (rest.foldl registerMember (registerMember seed m)).lookup t =
        match lastClaimant rest t with
        | some nm => some nm
        | none => (registerMember seed m).lookup t := ih (registerMember seed m) t
    rw [h1, lookup_registerMember]
    simp only [lastClaimant]
    cases lastClaimant rest t with
    | some x => simp
    | none => by_cases hc : claimsTag m t <;> simp [hc]

/-- C4: the registry constructor inserts every tagged member under each
identifier in its tag set — the last scanned claimant wins and overwrites
any caller-seeded entry — identifiers no member claims keep their seed
entry, and untagged members are silently skipped (the constructor is a
total function, so nothing is raised for them). -/
theorem model_converter_base_init_registry (seed : Dict String)
    (members : List MemberInfo) (t : String) (nm : String) :
    ((lastClaimant members t = some nm →
        (modelConverterBaseInit seed members).lookup t = some nm) ∧
      (lastClaimant members t = none →
        (modelConverterBaseInit seed members).lookup t = seed.lookup t)) ∧
    (∀ pre post : List MemberInfo, ∀ u : String,
      modelConverterBaseInit seed (pre ++ ⟨u, none⟩ :: post) =
        modelConverterBaseInit seed (pre ++ post)) := by
  refine ⟨⟨fun h => ?_, fun h => ?_⟩, fun pre post u => ?_⟩
  · rw [lookup_modelConverterBaseInit, h]
  · rw [lookup_modelConverterBaseInit, h]
  · simp [modelConverterBaseInit, List.foldl_append, registerMember]

theorem model_converter_base_init_registry_witness :
    (modelConverterBaseInit [("X", "seeded")]
        [⟨"conv_x", some ["X"]⟩, ⟨"helper", none⟩,
          ⟨"conv_xy", some ["X", "Y"]⟩]).lookup "X" = some "conv_xy" ∧
      modelConverterBaseInit [("X", "seeded")]
          ([⟨"conv_x", some ["X"]⟩] ++ ⟨"helper", none⟩ ::
            [⟨"conv_xy", some ["X", "Y"]⟩]) =
        modelConverterBaseInit [("X", "seeded")]
          ([⟨"conv_x", some ["X"]⟩] ++ [⟨"conv_xy", some ["X", "Y"]⟩]) :=
  ⟨(model_converter_base_init_registry [("X", "seeded")]
      [⟨"conv_x", some ["X"]⟩, ⟨"helper", none⟩, ⟨"conv_xy", some ["X", "Y"]⟩]
      "X" "conv_xy").1.1 (by decide),
    (model_converter_base_init_registry [("X", "seeded")]
      [⟨"conv_x", some ["X"]⟩, ⟨"helper", none⟩, ⟨"conv_xy", some ["X", "Y"]⟩]
      "X" "conv_xy").2 [⟨"conv_x", some ["X"]⟩] [⟨"conv_xy", some ["X", "Y"]⟩]
      "helper"⟩

/-- C5: for a two-parameter `on_model_change` override, every invocation of
the wrapper emits the deprecation warning and then calls the override with
exactly the two arguments `(form, model)`; the retry's own outcome,
including failure, is the wrapper's outcome (so a failing retry propagates
uncaught). -/
theorem on_model_change_two_param_compat (f : Nat → Nat → CallResult)
    (modelName : String) (form model : Nat) (is_created : Bool) :
    _on_model_change (.twoArg f) modelName form model is_created =
      ([deprecationMsg modelName], f form model) := rfl

/-- C6 counterexample: with `form_label` set to the empty string — a set
override — `get_label` does not return it; the truthiness test skips it and
the `column_labels` entry wins. -/
theorem get_label_empty_label_counterexample :
    (⟨some ""⟩ : InlineInfoAttrs).form_label = some "" ∧
      get_label ⟨some [("email", "E-mail")]⟩ ⟨some ""⟩ "email" = some "E-mail" ∧
      (some "E-mail" : Option String) ≠ some "" := by
  refine ⟨rfl, ?_, by decide⟩
  decide

/-- C6 amended: `get_label` returns `form_label` when it is set to a truthy
(non-empty) string; otherwise it returns the view's `column_labels[name]`
when present, and absence (`none`) otherwise — it never invents a label. -/
theorem get_label_resolution (view : ViewAttrs) (info : InlineInfoAttrs)
    (name : String) :
    (∀ s, info.form_label = some s → s ≠ "" →
      get_label view info name = some s) ∧
    (truthyStr info.form_label = false →
      get_label view info name = (view.column_labels.getD []).lookup name) := by
  constructor
  · intro s hs hne
    have ht : truthyStr (some s) = true := by
      simpa [truthyStr] using hne
    simp [get_label, hs, ht]
  · intro hf
    cases hcl : view.column_labels with
    | none => simp [get_label, hf, hcl, Dict.lookup]
    | some labels =>
      simp only [get_label, hf, Bool.false_eq_true, if_false, hcl,
        Option.getD_some]
      by_cases hemp : labels = []
      · subst hemp
        simp [Dict.lookup]
      · by_cases hmem : (labels.lookup name).isSome
        · rw [if_pos ⟨hemp, hmem⟩]
        · rw [if_neg (fun hh => hmem hh.2)]
          cases hlk : labels.lookup name with
          | none => rfl
          | some v => rw [hlk] at hmem; simp at hmem

theorem get_label_resolution_witness :
    get_label ⟨some [("email", "E-mail")]⟩ ⟨none⟩ "email" = some "E-mail" ∧
      get_label ⟨some [("email", "E-mail")]⟩ ⟨some "Custom"⟩ "email" =
        some "Custom" :=
  ⟨((get_label_resolution ⟨some [("email", "E-mail")]⟩ ⟨none⟩ "email").2
      rfl).trans (by decide),
    (get_label_resolution ⟨some [("email", "E-mail")]⟩ ⟨some "Custom"⟩
      "email").1 "Custom" rfl (by decide)⟩

theorem lookup_isSome_applyKwargs (kwargs : List (String × PyVal)) :
    ∀ (a : Dict PyVal) (k : String), ((a.lookup k).isSome) →
      (((applyKwargs a kwargs).lookup k).isSome) := by
  induction kwargs with
  | nil => intro a k h; exact h
  | cons kv rest ih =>
    intro a k h
    exact ih _ k (Dict.lookup_insert_isSome a kv.1 k kv.2 h)

theorem lookup_isSome_applyDefaults_step (ds : List String) :
    ∀ (a : Dict PyVal) (k : String), ((a.lookup k).isSome) →
      ((ds.foldl (fun a k =>
        if (a.lookup k).isSome then a else a.insert k .noneV) a).lookup k).isSome := by
  induction ds with
  | nil => intro a k h; exact h
  | cons d rest ih =>
    intro a k h
    refine ih _ k ?_
    show ((if (a.lookup d).isSome then a else a.insert d PyVal.noneV).lookup
      k).isSome = true
    by_cases hd : (a.lookup d).isSome
    · rw [if_pos hd]; exact h
    · rw [if_neg hd]; exact Dict.lookup_insert_isSome a d k .noneV h

theorem lookup_isSome_applyDefaults (ds : List String) :
    ∀ (a : Dict PyVal) (k : String), k ∈ ds →
      ((ds.foldl (fun a k =>
        if (a.lookup k).isSome then a else a.insert k .noneV) a).lookup k).isSome := by
  induction ds with
  | nil => intro a k h; cases h
  | cons d rest ih =>
    intro a k hk
    cases List.mem_cons.mp hk with
    | inl heq =>
      subst heq
      refine lookup_isSome_applyDefaults_step rest _ k ?_
      show ((if (a.lookup k).isSome then a else a.insert k PyVal.noneV).lookup
        k).isSome = true
      by_cases hd : (a.lookup k).isSome
      · rw [if_pos hd]; exact hd
      · rw [if_neg hd]
        rw [Dict.lookup_insert_self]
        rfl
    | inr hrest => exact ih _ k hrest

theorem lookup_applyKwargs_skip (kwargs : List (String × PyVal)) :
    ∀ (a : Dict PyVal) (k : String), (∀ p ∈ kwargs, p.1 ≠ k) →
      (applyKwargs a kwargs).lookup k = a.lookup k := by
  induction kwargs with
  | nil => intro a k _; rfl
  | cons kv rest ih =>
    intro a k hnone
    have h1 : kv.1 ≠ k := hnone kv (List.mem_cons_self _ _)
    rw [applyKwargs, List.foldl_cons]
    have h2 := ih (a.insert kv.1 kv.2) k
      (fun p hp => hnone p (List.mem_cons_of_mem _ hp))
    rw [applyKwargs] at h2
    rw [h2, Dict.lookup_insert_ne a kv.1 k kv.2 (fun hh => h1 hh.symm)]

theorem lookup_applyKwargs_mem (kwargs : List (String × PyVal)) :
    ∀ (a : Dict PyVal) (k : String) (v : PyVal), (k, v) ∈ kwargs →
      (kwargs.map Prod.fst).Nodup →
      (applyKwargs a kwargs).lookup k = some v := by
  induction kwargs with
  | nil => intro _ _ _ h _; cases h
  | cons kv rest ih =>
    intro a k v hmem hnodup
    rw [List.map_cons, List.nodup_cons] at hnodup
    obtain ⟨hknotin, hrestnodup⟩ := hnodup
    cases List.mem_cons.mp hmem with
    | inl heq =>
      rw [applyKwargs, List.foldl_cons]
      have hk2 : k ∉ rest.map Prod.fst := by
        rw [← heq] at hknotin
        exact hknotin
      have hskip : ∀ p ∈ rest, p.1 ≠ k := by
        intro p hp hpk
        exact hk2 (hpk ▸ List.mem_map_of_mem Prod.fst hp)
      have h2 := lookup_applyKwargs_skip rest (a.insert kv.1 kv.2) k hskip
      rw [applyKwargs] at h2
      rw [h2, ← heq]
      exact Dict.lookup_insert_self a k v
    | inr hrest =>
      rw [applyKwargs, List.foldl_cons]
      have h2 := ih (a.insert kv.1 kv.2) k v hrest hrestnodup
      rw [applyKwargs] at h2
      exact h2

/-- C9 counterexample: supplying `form_rules=[]` at construction — a
supplied value — yields `_form_rules = None`, not a compiled `RuleSet`,
because the code tests `if form_rules` (truthiness), not whether it was
supplied. -/
theorem inline_init_empty_rules_counterexample :
    (inlineBaseFormAdminInit [] [("form_rules", PyVal.listV [])]).lookup
        "_form_rules" = some PyVal.noneV ∧
      PyVal.noneV ≠ PyVal.ruleSetV [] := by
  refine ⟨?_, by decide⟩
  decide

/-- C9 amended: after construction every attribute in `_defaults` exists
(initialized to `None` when absent), every keyword override is applied, and
`_form_rules` is the `RuleSet` compiled from `form_rules` exactly when the
effective `form_rules` attribute is truthy (supplied non-empty, or a truthy
class attribute), and `None` otherwise. -/
theorem inline_base_form_admin_init_attrs (classAttrs : Dict PyVal)
    (kwargs : List (String × PyVal)) :
    (∀ k ∈ _defaults,
      ((inlineBaseFormAdminInit classAttrs kwargs).lookup k).isSome) ∧
    (∀ k v, (k, v) ∈ kwargs → (kwargs.map Prod.fst).Nodup →
      k ≠ "_form_rules" →
      (inlineBaseFormAdminInit classAttrs kwargs).lookup k = some v) ∧
    ((((applyKwargs (applyDefaults classAttrs) kwargs).lookup
          "form_rules").getD .noneV).truthy = true →
      (inlineBaseFormAdminInit classAttrs kwargs).lookup "_form_rules" =
        some (ruleSetOf (((applyKwargs (applyDefaults classAttrs)
          kwargs).lookup "form_rules").getD .noneV))) ∧
    ((((applyKwargs (applyDefaults classAttrs) kwargs).lookup
          "form_rules").getD .noneV).truthy = false →
      (inlineBaseFormAdminInit classAttrs kwargs).lookup "_form_rules" =
        some PyVal.noneV) := by
  refine ⟨?_, ?_, ?_, ?_⟩
  · intro k hk
    unfold inlineBaseFormAdminInit
    refine Dict.lookup_insert_isSome _ _ _ _ ?_
    refine lookup_isSome_applyKwargs kwargs _ k ?_
    exact lookup_isSome_applyDefaults _defaults classAttrs k hk
  · intro k v hmem hnodup hne
    unfold inlineBaseFormAdminInit
    rw [Dict.lookup_insert_ne _ _ _ _ hne]
    exact lookup_applyKwargs_mem kwargs _ k v hmem hnodup
  · intro ht
    simp only [inlineBaseFormAdminInit, ht, if_true]
    exact Dict.lookup_insert_self _ _ _
  · intro ht
    simp only [inlineBaseFormAdminInit, ht, Bool.false_eq_true, if_false]
    exact Dict.lookup_insert_self _ _ _

theorem inline_base_form_admin_init_attrs_witness :
    ((inlineBaseFormAdminInit []
        [("form_columns", PyVal.listV ["name"]),
          ("form_rules", PyVal.listV ["r1"])]).lookup "form_args").isSome ∧
      (inlineBaseFormAdminInit []
          [("form_columns", PyVal.listV ["name"]),
            ("form_rules", PyVal.listV ["r1"])]).lookup "form_columns" =
        some (PyVal.listV ["name"]) ∧
      (inlineBaseFormAdminInit []
          [("form_columns", PyVal.listV ["name"]),
            ("form_rules", PyVal.listV ["r1"])]).lookup "_form_rules" =
        some (PyVal.ruleSetV ["r1"]) :=
  ⟨(inline_base_form_admin_init_attrs []
      [("form_columns", PyVal.listV ["name"]),
        ("form_rules", PyVal.listV ["r1"])]).1 "form_args" (by decide),
    (inline_base_form_admin_init_attrs []
      [("form_columns", PyVal.listV ["name"]),
        ("form_rules", PyVal.listV ["r1"])]).2.1 "form_columns"
      (PyVal.listV ["name"]) (by decide) (by decide) (by decide),
    ((inline_base_form_admin_init_attrs []
      [("form_columns", PyVal.listV ["name"]),
        ("form_rules", PyVal.listV ["r1"])]).2.2.1 (by decide)).trans
      (by decide)⟩

/-- C7: `get_info` normalizes exactly three shapes: a `(model, options)`
pair is turned into a freshly constructed descriptor over that model and
those options, an existing descriptor is returned unchanged (the very same
object), and a plain model class yields absence. -/
theorem get_info_normalization (m : String) (opts : List (String × PyVal))
    (d : Dict PyVal) (m2 : String) :
    get_info (.tupleDecl m opts) = some (inlineFormAdminNew m opts) ∧
      get_info (.adminDecl d) = some d ∧
      get_info (.modelDecl m2) = none :=
  ⟨rfl, rfl, rfl⟩

end FlaskAdminModelForm

